import Mathlib

/-!
Verification of the hapi session-synchronization backend.

The definitions below are a shallow embedding of the TypeScript source:
`SyncEngine` (sync/syncEngine.ts), `MessageService` (sync/messageService.ts),
`AgentManager` (agent/agentManager.ts), the route guards
(web/routes/guards.ts) and the machines spawn route.  Components whose
source is not part of the repository snapshot (the `SessionCache`, the
persistent `Store` and the `EventPublisher`) are modelled from the
specification, and each such definition is marked `Modelled from the spec:`.
-/

namespace Hapi

/-- The metadata blob of a session as read by `resumeSession`: `path` is
`some p` exactly when the JSON field is present and a string
(`typeof metadata.path === 'string'`); the flavor and the four per-flavor
resume-token fields are optional strings. -/
structure SessionMetadata where
  path : Option String
  flavor : Option String
  claudeSessionId : Option String
  codexSessionId : Option String
  geminiSessionId : Option String
  opencodeSessionId : Option String
deriving DecidableEq, Repr

/-- An agent session as held by the session cache.  The `ns` field models the
session's `namespace` (an isolation boundary); `metadata` is `none` when the
session has no metadata blob. -/
structure Session where
  id : String
  ns : String
  active : Bool
  metadata : Option SessionMetadata
deriving DecidableEq, Repr

/-- Result of `resolveSessionAccess`: the discriminated union
`{ok:true, sessionId, session} | {ok:false, reason:'not-found'|'access-denied'}`.
The two failure constructors carry no session payload at all. -/
inductive AccessResult where
  | ok (sessionId : String) (session : Session)
  | notFound
  | accessDenied
deriving DecidableEq, Repr

/-- Modelled from the spec: `SessionCache.resolveSessionAccess(id, namespace)`
(the SessionCache source is not in the snapshot; guards.ts and syncEngine.ts
only call it).  Per the spec it returns `not-found` when no session with the
id exists anywhere, `access-denied` when one exists in a different namespace,
and ok with the session otherwise. -/
def resolveSessionAccess (sessions : List Session) (sessionId ns : String) :
    AccessResult :=
  match sessions.find? (fun s => s.id == sessionId) with
  | none => .notFound
  | some s => if s.ns == ns then .ok s.id s else .accessDenied

/-- Result of the `requireSession` route guard: either the resolved session or
a JSON error response with an HTTP status. -/
inductive GuardResult where
  | allowed (sessionId : String) (session : Session)
  | rejected (status : Nat) (error : String)
deriving DecidableEq, Repr

/-- `requireSession` from web/routes/guards.ts: resolves access and maps
`access-denied` to 403 and `not-found` to 404; with `requireActive` set it
additionally rejects inactive sessions with 409. -/
def requireSession (sessions : List Session) (sessionId ns : String)
    (requireActive : Bool) : GuardResult :=
  match resolveSessionAccess sessions sessionId ns with
  | .accessDenied => .rejected 403 "Session access denied"
  | .notFound => .rejected 404 "Session not found"
  | .ok sid s =>
      if requireActive && !s.active then .rejected 409 "Session is inactive"
      else .allowed sid s

/-- `resolveSessionForNamespace` from the CLI routes: the same mapping of
access failures to HTTP statuses, used by GET /sessions/:id. -/
def resolveSessionForNamespace (sessions : List Session) (sessionId ns : String) :
    GuardResult :=
  match resolveSessionAccess sessions sessionId ns with
  | .accessDenied => .rejected 403 "Session access denied"
  | .notFound => .rejected 404 "Session not found"
  | .ok sid s => .allowed sid s

/-! ## Versioned session metadata (Session Cache / Store write path) -/

/-- The versioned metadata column of one session row: an opaque metadata blob
plus its monotonic `metadataVersion`. -/
structure SessionRecord where
  metadata : String
  metadataVersion : Nat
deriving DecidableEq, Repr

/-- Outcome of a versioned metadata write, mirroring the store's
`{result:'success'|'version-mismatch', version, value}` shape. -/
inductive UpdateResult where
  | success (version : Nat) (value : String)
  | versionMismatch (version : Nat) (value : String)
deriving DecidableEq, Repr

/-- Modelled from the spec: `store.sessions.updateSessionMetadata` (the store
source is not in the snapshot; the agent manager's `update-metadata` handler
calls it).  Per the spec: with no `expectedVersion` the write is unconditional
and bumps the version; with a matching `expectedVersion` it applies and bumps;
with a stale one it returns `{result:'version-mismatch', version: current,
value: current}` without applying. -/
def updateSessionMetadata (s : SessionRecord) (m : String)
    (expectedVersion : Option Nat) : SessionRecord × UpdateResult :=
  match expectedVersion with
  | none =>
      (⟨m, s.metadataVersion + 1⟩, .success (s.metadataVersion + 1) m)
  | some v =>
      if v == s.metadataVersion then
        (⟨m, v + 1⟩, .success (v + 1) m)
      else
        (s, .versionMismatch s.metadataVersion s.metadata)

/-- Response sent back over the `update-metadata` RPC callback by the agent
manager's handler (agentManager.ts, `setupHandlers`). -/
inductive MetadataRpcResponse where
  | success (version : Nat) (metadata : String)
  | versionMismatch (version : Nat) (metadata : String)
  | error
deriving DecidableEq, Repr

/-- The `update-metadata` handler from agentManager.ts: absent session gives
`{result:'error'}`; otherwise the store result is forwarded, and only a
successful write publishes a `session-updated` event (tracked by the boolean
in the result). -/
def updateMetadataHandler (stored : Option SessionRecord) (m : String)
    (expectedVersion : Option Nat) :
    Option SessionRecord × MetadataRpcResponse × Bool :=
  match stored with
  | none => (none, .error, false)
  | some s =>
      match updateSessionMetadata s m expectedVersion with
      | (s1, .success v val) => (some s1, .success v val, true)
      | (s1, .versionMismatch v val) => (some s1, .versionMismatch v val, false)

/-! ## `waitForSessionActive` (syncEngine.ts) -/

/-- The polling loop of `SyncEngine.waitForSessionActive`: at iteration `k`
the elapsed time is `250 * k` milliseconds; while the elapsed time is below
the timeout it polls the session (`poll k` is whether the `k`-th poll observes
`active = true`), returning `true` on the first active observation, and
returns `false` once the elapsed time reaches the timeout. -/
def waitLoop (poll : Nat → Bool) (timeoutMs : Nat) (k : Nat) : Bool :=
  if 250 * k < timeoutMs then
    if poll k then true else waitLoop poll timeoutMs (k + 1)
  else
    false
termination_by timeoutMs - 250 * k
decreasing_by omega

/-- `SyncEngine.waitForSessionActive(sessionId, timeoutMs = 15000)`: bounded
poll at 250 ms intervals. -/
def waitForSessionActive (poll : Nat → Bool) (timeoutMs : Nat := 15000) : Bool :=
  waitLoop poll timeoutMs 0

/-! ## `resumeSession` (syncEngine.ts) -/

/-- The error codes of `ResumeSessionResult` in syncEngine.ts. -/
inductive ResumeCode where
  | session_not_found
  | access_denied
  | no_machine_online
  | resume_unavailable
  | resume_failed
deriving DecidableEq, Repr

/-- `ResumeSessionResult`: success with the final session id, or a typed
error. -/
inductive ResumeSessionResult where
  | success (sessionId : String)
  | error (message : String) (code : ResumeCode)
deriving DecidableEq, Repr

/-- Result of `AgentManager.spawnSession`. -/
inductive SpawnResult where
  | success (sessionId : String)
  | error (message : String)
deriving DecidableEq, Repr

/-- Outcomes of the external calls `resumeSession` makes after its local
checks: the agent manager's spawn, the bounded wait for the spawned session
to become active, and the session-cache merge (which may throw; the merge is
part of the SessionCache, whose source is not in the snapshot). -/
structure ResumeEnv where
  spawn : SpawnResult
  becameActive : Bool
  merge : Except String Unit

/-- `resumeSession`'s result together with which external effects were
reached: whether the spawn call was issued and whether the merge was
attempted. -/
structure ResumeOutcome where
  result : ResumeSessionResult
  spawnCalled : Bool
  mergeCalled : Bool
deriving DecidableEq, Repr

/-- Flavor resolution from syncEngine.ts: `codex`, `gemini` and `opencode`
pass through, anything else (including absence) falls back to `claude`. -/
def resolveFlavor (flavor : Option String) : String :=
  match flavor with
  | some s => if s == "codex" || s == "gemini" || s == "opencode" then s else "claude"
  | none => "claude"

/-- The flavor-specific resume token chosen by `resumeSession`. -/
def resumeTokenFor (md : SessionMetadata) (flavor : String) : Option String :=
  if flavor == "codex" then md.codexSessionId
  else if flavor == "gemini" then md.geminiSessionId
  else if flavor == "opencode" then md.opencodeSessionId
  else md.claudeSessionId

/-- JavaScript falsiness of the resume token (`if (!resumeToken)`): absent or
the empty string. -/
def tokenMissing (token : Option String) : Bool :=
  match token with
  | none => true
  | some s => s == ""

/-- `SyncEngine.resumeSession(sessionId, namespace)`, embedded over the
session list and the outcomes of its external calls.  The branch structure
follows syncEngine.ts lines 135-156 exactly: access resolution, the
already-active short-circuit, the `metadata.path` string check, the
flavor-token check, spawn, the bounded wait, and the conditional merge. -/
def resumeSession (sessions : List Session) (env : ResumeEnv)
    (sessionId ns : String) : ResumeOutcome :=
  match resolveSessionAccess sessions sessionId ns with
  | .accessDenied => ⟨.error "Session access denied" .access_denied, false, false⟩
  | .notFound => ⟨.error "Session not found" .session_not_found, false, false⟩
  | .ok sid session =>
    if session.active then ⟨.success sid, false, false⟩
    else
      match session.metadata with
      | none => ⟨.error "Session metadata missing path" .resume_unavailable, false, false⟩
      | some md =>
        match md.path with
        | none => ⟨.error "Session metadata missing path" .resume_unavailable, false, false⟩
        | some _ =>
          let flavor := resolveFlavor md.flavor
          if tokenMissing (resumeTokenFor md flavor) then
            ⟨.error "Resume session ID unavailable" .resume_unavailable, false, false⟩
          else
            match env.spawn with
            | .error msg => ⟨.error msg .resume_failed, true, false⟩
            | .success newId =>
              if env.becameActive then
                if newId == sid then ⟨.success newId, true, false⟩
                else
                  match env.merge with
                  | .ok _ => ⟨.success newId, true, true⟩
                  | .error msg => ⟨.error msg .resume_failed, true, true⟩
              else ⟨.error "Session failed to become active" .resume_failed, true, false⟩

/-! ## Sync-event namespace resolution (syncEngine.ts / eventPublisher) -/

/-- A sync event as seen by namespace resolution: its type tag, the optional
explicit `namespace` field (`ns`), and the optional referenced `sessionId`
(`some` exactly when the property is present on the event object). -/
structure SyncEvent where
  type : String
  ns : Option String
  sessionId : Option String
deriving DecidableEq, Repr

/-- JavaScript truthiness of the explicit namespace field
(`if (event.namespace)`): present and non-empty. -/
def truthyNs (ns : Option String) : Bool :=
  match ns with
  | none => false
  | some s => s != ""

/-- `SyncEngine.resolveNamespace(event)`: a truthy explicit `namespace` field
wins; otherwise, when the event has a `sessionId` property, the namespace of
that session (if any); otherwise unresolved. -/
def resolveNamespace (sessions : List Session) (e : SyncEvent) : Option String :=
  if truthyNs e.ns then e.ns
  else
    match e.sessionId with
    | some sid => (sessions.find? (fun s => s.id == sid)).map (fun s => s.ns)
    | none => none

/-- Modelled from the spec: `EventPublisher.emit` (the EventPublisher source
is not in the snapshot).  Per the spec invariant, `emit` resolves the
namespace via `resolveNamespace`; an event whose namespace is unresolvable is
dropped (`none`), otherwise it is delivered scoped to exactly that
namespace. -/
def emitDelivered (sessions : List Session) (e : SyncEvent) :
    Option (String × SyncEvent) :=
  match resolveNamespace sessions e with
  | none => none
  | some ns => some (ns, e)

/-! ## Message ledger and `MessageService` (messageService.ts) -/

/-- The content of a stored message.  For user-authored sends it is the
object `{role:'user', content:{type:'text', text, attachments}, meta:{sentFrom}}`
built by `sendMessage`; agent-originated content uses the same shape
opaquely. -/
structure MessageContent where
  role : String
  text : String
  attachments : List String
  sentFrom : String
deriving DecidableEq, Repr

/-- A message row of the per-session ledger: globally-unique `id`,
per-session strictly-increasing `seq`, optional client-supplied `localId`,
content and creation time. -/
structure StoredMessage where
  id : Nat
  seq : Nat
  localId : Option String
  content : MessageContent
  createdAt : Nat
deriving DecidableEq, Repr

/-- Modelled from the spec: `store.messages.getMessages(sessionId, limit,
beforeSeq?)` (the store source is not in the snapshot).  The ledger is the
session's messages in the store's natural order, ascending by `seq`; the
store returns up to `limit` messages with `seq < beforeSeq` (all messages
when `beforeSeq` is absent), keeping the most recent ones, in natural
order. -/
def storeGetMessages (ledger : List StoredMessage) (limit : Nat)
    (beforeSeq : Option Nat) : List StoredMessage :=
  let f := match beforeSeq with
    | none => ledger
    | some b => ledger.filter (fun m => m.seq < b)
  f.drop (f.length - limit)

/-- The pagination cursor returned by `getMessagesPage`. -/
structure PageInfo where
  limit : Nat
  beforeSeq : Option Nat
  nextBeforeSeq : Option Nat
  hasMore : Bool
deriving DecidableEq, Repr

/-- The result of `getMessagesPage`. -/
structure MessagesPage where
  messages : List StoredMessage
  page : PageInfo
deriving DecidableEq, Repr

/-- The `oldestSeq` loop of `getMessagesPage`: fold over the returned
messages keeping the least `seq` seen so far (`null` when no message). -/
def oldestSeq (ms : List StoredMessage) : Option Nat :=
  ms.foldl
    (fun acc m =>
      match acc with
      | none => some m.seq
      | some o => if m.seq < o then some m.seq else some o)
    none

/-- `MessageService.getMessagesPage(sessionId, {limit, beforeSeq})` from
messageService.ts: read a store page, compute `nextBeforeSeq` as the least
returned `seq` (or null), and probe the store for one more older message to
decide `hasMore`. -/
def getMessagesPage (ledger : List StoredMessage) (limit : Nat)
    (beforeSeq : Option Nat) : MessagesPage :=
  let stored := storeGetMessages ledger limit beforeSeq
  let next := oldestSeq stored
  let hasMore :=
    match next with
    | none => false
    | some v => !(storeGetMessages ledger 1 (some v)).isEmpty
  ⟨stored, ⟨limit, beforeSeq, next, hasMore⟩⟩

/-- `MessageService.getMessagesAfter` delegates to the store's forward
cursor.  Modelled from the spec: `store.messages.getMessagesAfter(sessionId,
afterSeq, limit)` returns the messages with `seq > afterSeq`, ascending,
up to `limit`. -/
def getMessagesAfter (ledger : List StoredMessage) (afterSeq limit : Nat) :
    List StoredMessage :=
  (ledger.filter (fun m => afterSeq < m.seq)).take limit

/-- The pagination loop a client runs over `getMessagesPage`: fetch a page;
if `hasMore`, continue with `beforeSeq := nextBeforeSeq`, else stop.  The
loop is embedded with explicit fuel (the source loop is unbounded); the
round-trip theorem shows `ledger.length + 1` fuel always reaches
`hasMore = false`. -/
def pageLoop (ledger : List StoredMessage) (limit : Nat) :
    Nat → Option Nat → List StoredMessage
  | 0, _ => []
  | fuel + 1, beforeSeq =>
      let r := getMessagesPage ledger limit beforeSeq
      if r.page.hasMore then r.messages ++ pageLoop ledger limit fuel r.page.nextBeforeSeq
      else r.messages

/-- All pages of a session's messages, concatenated by following
`nextBeforeSeq` from an initial `beforeSeq = null` until `hasMore = false`. -/
def collectAllPages (ledger : List StoredMessage) (limit : Nat) :
    List StoredMessage :=
  pageLoop ledger limit (ledger.length + 1) none

/-! ## `sendMessage` (messageService.ts / agentManager.ts) -/

/-- Modelled from the spec: the message table of the store
(`messages.addMessage` is an atomic seq-allocate and append; the store source
is not in the snapshot).  `nextSeq`/`nextId` are the allocation counters and
`clock` the `createdAt` source. -/
structure MessageStore where
  ledger : List StoredMessage
  nextSeq : Nat
  nextId : Nat
  clock : Nat
deriving DecidableEq, Repr

/-- Modelled from the spec: `store.messages.addMessage(sessionId, content,
localId?)`: atomically allocate the next `seq` and append the new row,
returning it. -/
def addMessage (st : MessageStore) (content : MessageContent)
    (localId : Option String) : MessageStore × StoredMessage :=
  let msg : StoredMessage := ⟨st.nextId, st.nextSeq, localId, content, st.clock⟩
  (⟨st.ledger ++ [msg], st.nextSeq + 1, st.nextId + 1, st.clock⟩, msg)

/-- A published `message-received` sync event, carrying the stored message
fields `{id, seq, localId, content, createdAt}`. -/
structure MessageReceivedEvent where
  sessionId : String
  message : StoredMessage
deriving DecidableEq, Repr

/-- `AgentManager.sendToSession(sessionId, event, ...)`: look the session up
in the live-session map and push when attached
(`this.sessions.get(sessionId)?.transport.send(...)`); a detached session
makes the call a no-op, never a failure. -/
def sendToSession (agentAttached : Bool) (pushes : List StoredMessage)
    (msg : StoredMessage) : List StoredMessage :=
  if agentAttached then pushes ++ [msg] else pushes

/-- The observable state `sendMessage` acts on: the message store, whether a
live agent is attached to the session, the `update` pushes delivered to the
agent transport, and the published sync events. -/
structure SendState where
  store : MessageStore
  agentAttached : Bool
  pushes : List StoredMessage
  events : List MessageReceivedEvent
deriving DecidableEq, Repr

/-- `MessageService.sendMessage(sessionId, payload)` from messageService.ts:
build the user content (default `sentFrom` is `webapp`), append via the
store's atomic `addMessage`, forward the stored message to the live agent via
an `update` push, and publish a `message-received` event carrying the stored
message. -/
def sendMessage (st : SendState) (sessionId : String) (text : String)
    (localId : Option String) (attachments : List String)
    (sentFrom : Option String) : SendState :=
  let sentFromVal := sentFrom.getD "webapp"
  let content : MessageContent := ⟨"user", text, attachments, sentFromVal⟩
  let r := addMessage st.store content localId
  let pushes1 := sendToSession st.agentAttached st.pushes r.2
  let events1 := st.events ++ [⟨sessionId, r.2⟩]
  ⟨r.1, st.agentAttached, pushes1, events1⟩

/-! ## `spawnSession` and the spawn route (syncEngine.ts / machines route) -/

/-- The request object `SyncEngine.spawnSession` forwards to
`AgentManager.spawnSession`: exactly `{directory, agent, model, yolo,
resumeSessionId}`. -/
structure AgentSpawnRequest where
  directory : String
  agent : String
  model : Option String
  yolo : Option Bool
  resumeSessionId : Option String
deriving DecidableEq, Repr

/-- `SyncEngine.spawnSession(machineId, directory, agent = 'claude', model?,
yolo?, sessionType?, worktreeName?, resumeSessionId?)`: the request it
forwards to the Agent Manager.  The TypeScript default parameter makes an
absent `agent` equal to `claude`. -/
def spawnSessionRequest (machineId : String) (directory : String)
    (agent : Option String) (model : Option String) (yolo : Option Bool)
    (sessionType : Option String) (worktreeName : Option String)
    (resumeSessionId : Option String) : AgentSpawnRequest :=
  ⟨directory, agent.getD "claude", model, yolo, resumeSessionId⟩

/-- `SyncEngine.spawnSession` itself: apply the Agent Manager (abstracted as
a function of the forwarded request) to the forwarded request. -/
def spawnSession (spawner : AgentSpawnRequest → SpawnResult)
    (machineId : String) (directory : String) (agent : Option String)
    (model : Option String) (yolo : Option Bool) (sessionType : Option String)
    (worktreeName : Option String) (resumeSessionId : Option String) :
    SpawnResult :=
  spawner (spawnSessionRequest machineId directory agent model yolo
    sessionType worktreeName resumeSessionId)

/-- The validated body of `POST /machines/:id/spawn` (machines route): the
route accepts and forwards `sessionType` and `worktreeName` besides the spawn
parameters. -/
structure SpawnBody where
  directory : String
  agent : Option String
  model : Option String
  yolo : Option Bool
  sessionType : Option String
  worktreeName : Option String
deriving DecidableEq, Repr

/-- The machines route handler body: it calls
`engine.spawnSession('local', directory, agent, model, yolo, sessionType,
worktreeName)` with no `resumeSessionId`. -/
def spawnRoute (spawner : AgentSpawnRequest → SpawnResult) (body : SpawnBody) :
    SpawnResult :=
  spawnSession spawner "local" body.directory body.agent body.model body.yolo
    body.sessionType body.worktreeName none

/-! ## Theorems -/

/-- C1: For every sessionId S and namespaces nsA, nsB with S belonging to
nsB ≠ nsA, `resolveSessionAccess(S, nsA)` returns `{ok:false,
reason:'access-denied'}` — a constructor carrying no session fields — and
when no session with id S exists in any namespace it returns `{ok:false,
reason:'not-found'}`; the route guard maps `access-denied` to HTTP 403 and
`not-found` to HTTP 404. -/
theorem C1_namespace_isolation (sessions : List Session) (S nsA : String) :
    (∀ s : Session, sessions.find? (fun t => t.id == S) = some s → s.ns ≠ nsA →
      resolveSessionAccess sessions S nsA = .accessDenied ∧
      requireSession sessions S nsA false = .rejected 403 "Session access denied") ∧
    ((∀ s ∈ sessions, s.id ≠ S) →
      resolveSessionAccess sessions S nsA = .notFound ∧
      requireSession sessions S nsA false = .rejected 404 "Session not found") := by
  constructor
  · intro s hfind hne
    have haccess : resolveSessionAccess sessions S nsA = .accessDenied := by
      unfold resolveSessionAccess
      rw [hfind]
      simp [hne]
    refine ⟨haccess, ?_⟩
    unfold requireSession
    rw [haccess]
  · intro habsent
    have hfind : sessions.find? (fun t => t.id == S) = none := by
      rw [List.find?_eq_none]
      intro s hs
      simpa using habsent s hs
    have haccess : resolveSessionAccess sessions S nsA = .notFound := by
      unfold resolveSessionAccess
      rw [hfind]
    refine ⟨haccess, ?_⟩
    unfold requireSession
    rw [haccess]

/-- Witness for C1 at a concrete store: session `s1` lives in namespace
`beta`; access from `alpha` is denied with 403, and an unknown id `s2` is
not-found with 404. -/
theorem C1_namespace_isolation_witness :
    resolveSessionAccess [⟨"s1", "beta", false, none⟩] "s1" "alpha" = .accessDenied ∧
    requireSession [⟨"s1", "beta", false, none⟩] "s1" "alpha" false =
      .rejected 403 "Session access denied" ∧
    resolveSessionAccess [⟨"s1", "beta", false, none⟩] "s2" "alpha" = .notFound ∧
    requireSession [⟨"s1", "beta", false, none⟩] "s2" "alpha" false =
      .rejected 404 "Session not found" := by
  have h := C1_namespace_isolation [⟨"s1", "beta", false, none⟩] "s1" "alpha"
  have h1 := h.1 ⟨"s1", "beta", false, none⟩ (by decide) (by decide)
  have h2 := (C1_namespace_isolation [⟨"s1", "beta", false, none⟩] "s2" "alpha").2
    (by decide)
  exact ⟨h1.1, h1.2, h2.1, h2.2⟩

/-- C2: if `updateSessionMetadata(S, m, v)` succeeds, a subsequent read
returns `metadataVersion v+1` and metadata `m`; a second call with the same
`expectedVersion v` (with any payload) returns `{result:'version-mismatch',
version: current, value: current}` and leaves the stored record unchanged —
no partial application and no retry inside the store. -/
theorem C2_metadata_versioning (s : SessionRecord) (m : String) (v ver : Nat)
    (val : String)
    (hsucc : (updateSessionMetadata s m (some v)).2 = .success ver val) :
    (updateSessionMetadata s m (some v)).1.metadataVersion = v + 1 ∧
    (updateSessionMetadata s m (some v)).1.metadata = m ∧
    ∀ m2 : String,
      updateSessionMetadata (updateSessionMetadata s m (some v)).1 m2 (some v) =
        ((updateSessionMetadata s m (some v)).1, .versionMismatch (v + 1) m) := by
  unfold updateSessionMetadata at hsucc ⊢
  by_cases hv : v = s.metadataVersion
  · simp [hv] at hsucc ⊢
  · have : (v == s.metadataVersion) = false := by simpa using hv
    simp [this] at hsucc

/-- Witness for C2: starting from version 5, a successful write with
`expectedVersion 5` yields version 6 with the new metadata, and repeating
with `expectedVersion 5` is rejected unchanged. -/
theorem C2_metadata_versioning_witness :
    (updateSessionMetadata ⟨"m0", 5⟩ "m1" (some 5)).1.metadataVersion = 6 ∧
    (updateSessionMetadata ⟨"m0", 5⟩ "m1" (some 5)).1.metadata = "m1" ∧
    updateSessionMetadata (updateSessionMetadata ⟨"m0", 5⟩ "m1" (some 5)).1
        "m2" (some 5) =
      ((updateSessionMetadata ⟨"m0", 5⟩ "m1" (some 5)).1,
        .versionMismatch 6 "m1") := by
  have h := C2_metadata_versioning ⟨"m0", 5⟩ "m1" 5 6 "m1" (by rfl)
  exact ⟨h.1, h.2.1, h.2.2 "m2"⟩

/-- Unrolling of the poll loop: `waitLoop` returns `true` iff some poll at or
after the current iteration, still within the timeout, observes the session
active. -/
theorem waitLoop_true_iff (poll : Nat → Bool) (t k : Nat) :
    waitLoop poll t k = true ↔ ∃ j, k ≤ j ∧ 250 * j < t ∧ poll j = true := by
  have H : ∀ n k, t - 250 * k ≤ n →
      (waitLoop poll t k = true ↔ ∃ j, k ≤ j ∧ 250 * j < t ∧ poll j = true) := by
    intro n
    induction n with
    | zero =>
      intro k hk
      have h1 : ¬ 250 * k < t := by omega
      rw [waitLoop]
      simp only [h1, if_false, Bool.false_eq_true, false_iff]
      rintro ⟨j, hj, hjt, _⟩
      exact absurd hjt (by omega)
    | succ n ih =>
      intro k hk
      rw [waitLoop]
      by_cases h1 : 250 * k < t
      · by_cases h2 : poll k = true
        · simp only [h1, if_true, h2, true_iff]
          exact ⟨k, le_refl k, h1, h2⟩
        · simp only [h1, if_true, h2, Bool.false_eq_true, if_false, ite_false,
            Bool.not_eq_true]
          rw [ih (k + 1) (by omega)]
          constructor
          · rintro ⟨j, hj, hjt, hp⟩
            exact ⟨j, by omega, hjt, hp⟩
          · rintro ⟨j, hj, hjt, hp⟩
            rcases Nat.eq_or_lt_of_le hj with rfl | hlt
            · exact absurd hp h2
            · exact ⟨j, by omega, hjt, hp⟩
      · simp only [h1, if_false, Bool.false_eq_true, false_iff]
        rintro ⟨j, hj, hjt, _⟩
        exact absurd hjt (by omega)
  exact H (t - 250 * k) k (le_refl _)

/-- C5: `waitForSessionActive` is a total bounded poll: it returns `true`
exactly when some poll `k` within the timeout (elapsed `250*k < timeoutMs`)
observes the session active — in particular it never returns `true` for a
session never observed active — and it returns `false` exactly when no poll
within the bound observes it active; the default timeout is 15000 ms. -/
theorem C5_wait_for_active_bounded (poll : Nat → Bool) (t : Nat) :
    (waitForSessionActive poll t = true ↔ ∃ k, 250 * k < t ∧ poll k = true) ∧
    (waitForSessionActive poll t = false ↔ ∀ k, 250 * k < t → poll k = false) ∧
    waitForSessionActive poll = waitForSessionActive poll 15000 := by
  have h1 : waitForSessionActive poll t = true ↔ ∃ k, 250 * k < t ∧ poll k = true := by
    unfold waitForSessionActive
    rw [waitLoop_true_iff]
    constructor
    · rintro ⟨j, _, hjt, hp⟩
      exact ⟨j, hjt, hp⟩
    · rintro ⟨j, hjt, hp⟩
      exact ⟨j, Nat.zero_le j, hjt, hp⟩
  refine ⟨h1, ?_, rfl⟩
  constructor
  · intro hf k hkt
    have : ¬ waitForSessionActive poll t = true := by simp [hf]
    rw [h1] at this
    push_neg at this
    simpa using this k hkt
  · intro hall
    cases hw : waitForSessionActive poll t
    · rfl
    · exfalso
      rcases h1.mp hw with ⟨k, hkt, hp⟩
      have := hall k hkt
      simp [this] at hp

/-- Elimination for a successful access resolution: the returned id is the
requested one, the session carries that id, its namespace is the requesting
one, and it is the session found in the store. -/
theorem resolveSessionAccess_ok_elim (sessions : List Session)
    (sid ns a : String) (s : Session)
    (h : resolveSessionAccess sessions sid ns = .ok a s) :
    a = sid ∧ s.id = sid ∧ s.ns = ns ∧
    sessions.find? (fun t => t.id == sid) = some s := by
  unfold resolveSessionAccess at h
  cases hf : sessions.find? (fun t => t.id == sid) with
  | none => rw [hf] at h; cases h
  | some u =>
    rw [hf] at h
    have hid : u.id = sid := by simpa using List.find?_some hf
    by_cases hns : u.ns = ns
    · simp only [hns, beq_self_eq_true, if_true, AccessResult.ok.injEq] at h
      obtain ⟨ha, hs⟩ := h
      subst hs
      subst ha
      exact ⟨hid, hid, hns, rfl⟩
    · simp [hns] at h

/-- C3: `resumeSession` succeeds in exactly two situations: (i) access
resolves ok and the session is already active — then the returned id is the
original id and no spawn call is issued; or (ii) the spawn call was issued,
succeeded, and the spawned session became active within the wait bound — then
the returned id is the spawned session's id, and when that id differs from
the original the merge of the old id into the new one completed without
throwing before returning. -/
theorem C3_resume_success (sessions : List Session) (env : ResumeEnv)
    (sessionId ns out : String) :
    ((resumeSession sessions env sessionId ns).result = .success out ↔
      (∃ s : Session, resolveSessionAccess sessions sessionId ns = .ok sessionId s ∧
        s.active = true ∧ out = sessionId ∧
        (resumeSession sessions env sessionId ns).spawnCalled = false) ∨
      ((resumeSession sessions env sessionId ns).spawnCalled = true ∧
        env.spawn = .success out ∧ env.becameActive = true ∧
        (out = sessionId ∨ env.merge = .ok ()))) ∧
    ((resumeSession sessions env sessionId ns).result = .success out →
      out ≠ sessionId →
      (resumeSession sessions env sessionId ns).mergeCalled = true ∧
      env.merge = .ok ()) := by
  unfold resumeSession
  cases hacc : resolveSessionAccess sessions sessionId ns with
  | accessDenied => simp
  | notFound => simp
  | ok a s =>
    obtain ⟨ha, hid, hns, hfind⟩ :=
      resolveSessionAccess_ok_elim sessions sessionId ns a s hacc
    subst ha
    by_cases hact : s.active = true
    · simp only [hact, if_true]
      constructor
      · constructor
        · intro h
          obtain rfl : a = out := by cases h; rfl
          exact Or.inl ⟨s, rfl, hact, rfl, trivial⟩
        · rintro (⟨s2, hs2, _, rfl, _⟩ | ⟨hspawn, _, _, _⟩)
          · rfl
          · simp at hspawn
      · intro h hne
        obtain rfl : a = out := by cases h; rfl
        exact absurd rfl hne
    · have hactF : s.active = false := by simpa using hact
      cases hmd : s.metadata with
      | none => simp [hactF, hmd]
      | some md =>
        cases hpath : md.path with
        | none => simp [hactF, hmd, hpath]
        | some p =>
          by_cases htok : tokenMissing (resumeTokenFor md (resolveFlavor md.flavor)) = true
          · simp [hactF, hmd, hpath, htok]
          · have htokF : tokenMissing (resumeTokenFor md (resolveFlavor md.flavor)) = false := by
              simpa using htok
            cases hspawn : env.spawn with
            | error msg => simp [hactF, hmd, hpath, htokF, hspawn]
            | success newId =>
              by_cases hba : env.becameActive = true
              · by_cases heq : newId = a
                · subst heq
                  simp [hactF, hmd, hpath, htokF, hspawn, hba]
                  exact ⟨fun h => Or.inl h.symm, fun h => h.symm⟩
                · cases hmerge : env.merge with
                  | ok u =>
                    cases u
                    simp [hactF, hmd, hpath, htokF, hspawn, hba, heq, hmerge]
                  | error msg =>
                    simp [hactF, hmd, hpath, htokF, hspawn, hba, heq, hmerge]
                    intro h1 h2
                    exact heq (h1.trans h2)
              · have hbaF : env.becameActive = false := by simpa using hba
                simp [hactF, hmd, hpath, htokF, hspawn, hbaF]

/-- Witness for C3 at concrete inputs: an already-active session resumes as a
no-op success with the original id and no spawn; an inactive session with a
resumable metadata blob whose spawn returns a fresh id that becomes active and
merges cleanly succeeds with the spawned id. -/
theorem C3_resume_success_witness :
    (resumeSession [⟨"abc", "ns1", true, none⟩]
        ⟨.success "xyz", true, .ok ()⟩ "abc" "ns1").result = .success "abc" ∧
    (resumeSession [⟨"abc", "ns1", true, none⟩]
        ⟨.success "xyz", true, .ok ()⟩ "abc" "ns1").spawnCalled = false ∧
    (resumeSession
        [⟨"abc", "ns1", false,
          some ⟨some "/repo", none, some "tok1", none, none, none⟩⟩]
        ⟨.success "xyz", true, .ok ()⟩ "abc" "ns1").result = .success "xyz" := by
  refine ⟨?_, ?_, ?_⟩
  · exact ((C3_resume_success [⟨"abc", "ns1", true, none⟩]
      ⟨.success "xyz", true, .ok ()⟩ "abc" "ns1" "abc").1).mpr
      (Or.inl ⟨⟨"abc", "ns1", true, none⟩, by decide, rfl, rfl, by decide⟩)
  · decide
  · exact ((C3_resume_success
      [⟨"abc", "ns1", false,
        some ⟨some "/repo", none, some "tok1", none, none, none⟩⟩]
      ⟨.success "xyz", true, .ok ()⟩ "abc" "ns1" "xyz").1).mpr
      (Or.inr ⟨by decide, rfl, rfl, Or.inr rfl⟩)

/-- C4: `resumeSession` returns `session_not_found` exactly when access
resolves to not-found, `access_denied` exactly when it resolves to
access-denied, `resume_unavailable` exactly when the inactive session's
metadata is absent, lacks a string `path`, or lacks a usable (non-falsy)
flavor-specific resume token, and `resume_failed` exactly when those checks
pass but the spawn errors, the spawned session does not become active within
the wait bound, or the merge of differing ids throws; `no_machine_online` is
never produced. -/
theorem C4_resume_error_codes (sessions : List Session) (env : ResumeEnv)
    (sessionId ns : String) :
    ((∃ msg, (resumeSession sessions env sessionId ns).result =
        .error msg .session_not_found) ↔
      resolveSessionAccess sessions sessionId ns = .notFound) ∧
    ((∃ msg, (resumeSession sessions env sessionId ns).result =
        .error msg .access_denied) ↔
      resolveSessionAccess sessions sessionId ns = .accessDenied) ∧
    ((∃ msg, (resumeSession sessions env sessionId ns).result =
        .error msg .resume_unavailable) ↔
      (∃ s : Session, resolveSessionAccess sessions sessionId ns = .ok sessionId s ∧
        s.active = false ∧
        (s.metadata = none ∨
          (∃ md, s.metadata = some md ∧
            (md.path = none ∨
              (∃ p, md.path = some p ∧
                tokenMissing (resumeTokenFor md (resolveFlavor md.flavor)) = true)))))) ∧
    ((∃ msg, (resumeSession sessions env sessionId ns).result =
        .error msg .resume_failed) ↔
      (∃ (s : Session) (md : SessionMetadata) (p : String),
        resolveSessionAccess sessions sessionId ns = .ok sessionId s ∧
        s.active = false ∧ s.metadata = some md ∧ md.path = some p ∧
        tokenMissing (resumeTokenFor md (resolveFlavor md.flavor)) = false ∧
        ((∃ m2, env.spawn = .error m2) ∨
          (∃ newId, env.spawn = .success newId ∧
            (env.becameActive = false ∨
              (env.becameActive = true ∧ newId ≠ sessionId ∧
                ∃ m3, env.merge = .error m3)))))) ∧
    (∀ msg, (resumeSession sessions env sessionId ns).result ≠
      .error msg .no_machine_online) := by
  unfold resumeSession
  cases hacc : resolveSessionAccess sessions sessionId ns with
  | accessDenied => simp
  | notFound => simp
  | ok a s =>
    obtain ⟨ha, hid, hns, hfind⟩ :=
      resolveSessionAccess_ok_elim sessions sessionId ns a s hacc
    subst ha
    by_cases hact : s.active = true
    · simp [hact]
    · have hactF : s.active = false := by simpa using hact
      cases hmd : s.metadata with
      | none => simp [hactF, hmd]
      | some md =>
        cases hpath : md.path with
        | none => simp [hactF, hmd, hpath]
        | some p =>
          by_cases htok : tokenMissing (resumeTokenFor md (resolveFlavor md.flavor)) = true
          · simp [hactF, hmd, hpath, htok]
          · have htokF : tokenMissing (resumeTokenFor md (resolveFlavor md.flavor)) = false := by
              simpa using htok
            cases hspawn : env.spawn with
            | error msg => simp [hactF, hmd, hpath, htokF, hspawn]
            | success newId =>
              by_cases hba : env.becameActive = true
              · by_cases heq : newId = a
                · subst heq
                  simp [hactF, hmd, hpath, htokF, hspawn, hba]
                · cases hmerge : env.merge with
                  | ok u =>
                    cases u
                    simp [hactF, hmd, hpath, htokF, hspawn, hba, heq, hmerge]
                  | error msg =>
                    simp [hactF, hmd, hpath, htokF, hspawn, hba, heq, hmerge]
              · have hbaF : env.becameActive = false := by simpa using hba
                simp [hactF, hmd, hpath, htokF, hspawn, hbaF]

/-- C4 witness at concrete inputs: an unknown id yields `session_not_found`;
an inactive session without metadata yields `resume_unavailable`; an inactive
resumable session whose spawn errors yields `resume_failed`. -/
theorem C4_resume_error_codes_witness :
    (∃ msg, (resumeSession [] ⟨.success "x", true, .ok ()⟩ "abc" "ns1").result =
      .error msg .session_not_found) ∧
    (∃ msg, (resumeSession [⟨"abc", "ns1", false, none⟩]
        ⟨.success "x", true, .ok ()⟩ "abc" "ns1").result =
      .error msg .resume_unavailable) ∧
    (∃ msg, (resumeSession
        [⟨"abc", "ns1", false,
          some ⟨some "/repo", none, some "tok1", none, none, none⟩⟩]
        ⟨.error "spawn broke", true, .ok ()⟩ "abc" "ns1").result =
      .error msg .resume_failed) := by
  refine ⟨?_, ?_, ?_⟩
  · exact ((C4_resume_error_codes [] ⟨.success "x", true, .ok ()⟩ "abc" "ns1").1).mpr
      (by decide)
  · exact ((C4_resume_error_codes [⟨"abc", "ns1", false, none⟩]
      ⟨.success "x", true, .ok ()⟩ "abc" "ns1").2.2.1).mpr
      ⟨⟨"abc", "ns1", false, none⟩, by decide, rfl, Or.inl rfl⟩
  · exact ((C4_resume_error_codes
      [⟨"abc", "ns1", false,
        some ⟨some "/repo", none, some "tok1", none, none, none⟩⟩]
      ⟨.error "spawn broke", true, .ok ()⟩ "abc" "ns1").2.2.2.1).mpr
      ⟨⟨"abc", "ns1", false,
        some ⟨some "/repo", none, some "tok1", none, none, none⟩⟩,
        ⟨some "/repo", none, some "tok1", none, none, none⟩, "/repo",
        by decide, rfl, rfl, rfl, by decide, Or.inl ⟨"spawn broke", rfl⟩⟩

/-- C6 counterexample: an event that carries an explicit `namespace` field
whose value is the empty string is not resolved to that namespace —
JavaScript truthiness (`if (event.namespace)`) skips it and the session's
namespace wins instead. -/
theorem C6_namespace_resolution_counterexample :
    (⟨"toast", some "", some "s1"⟩ : SyncEvent).ns = some "" ∧
    resolveNamespace [⟨"s1", "beta", true, none⟩]
      ⟨"toast", some "", some "s1"⟩ = some "beta" ∧
    resolveNamespace [⟨"s1", "beta", true, none⟩]
      ⟨"toast", some "", some "s1"⟩ ≠ some "" := by
  refine ⟨rfl, by decide, by decide⟩

/-- C6 (amended): if the event carries a non-empty explicit `namespace`
field, that namespace is used (an empty-string field is treated as absent);
otherwise, when the event references a `sessionId` of a known session, that
session's namespace is used; when neither yields a namespace the event
resolves to no namespace and `emit` drops it rather than delivering it
unscoped; every delivered event carries exactly the one resolved
namespace. -/
theorem C6_namespace_resolution_amended (sessions : List Session) (e : SyncEvent) :
    (∀ nsv, e.ns = some nsv → nsv ≠ "" → resolveNamespace sessions e = some nsv) ∧
    (truthyNs e.ns = false → ∀ sid s, e.sessionId = some sid →
      sessions.find? (fun t => t.id == sid) = some s →
      resolveNamespace sessions e = some s.ns) ∧
    (truthyNs e.ns = false →
      (e.sessionId = none ∨
        (∃ sid, e.sessionId = some sid ∧
          sessions.find? (fun t => t.id == sid) = none)) →
      resolveNamespace sessions e = none ∧ emitDelivered sessions e = none) ∧
    (∀ nsv ev, emitDelivered sessions e = some (nsv, ev) →
      resolveNamespace sessions e = some nsv ∧ ev = e) := by
  refine ⟨?_, ?_, ?_, ?_⟩
  · intro nsv hns hne
    unfold resolveNamespace
    have : truthyNs e.ns = true := by
      unfold truthyNs
      rw [hns]
      simpa using hne
    rw [if_pos this, hns]
  · intro hfalsy sid s hsid hfind
    unfold resolveNamespace
    rw [if_neg (by simp [hfalsy]), hsid]
    simp [hfind]
  · intro hfalsy hnone
    have hres : resolveNamespace sessions e = none := by
      unfold resolveNamespace
      rw [if_neg (by simp [hfalsy])]
      rcases hnone with h | ⟨sid, hsid, hfind⟩
      · rw [h]
      · rw [hsid]
        simp [hfind]
    refine ⟨hres, ?_⟩
    unfold emitDelivered
    rw [hres]
  · intro nsv ev hdel
    unfold emitDelivered at hdel
    cases hres : resolveNamespace sessions e with
    | none => rw [hres] at hdel; cases hdel
    | some w =>
      rw [hres] at hdel
      cases hdel
      exact ⟨rfl, rfl⟩

/-- Witness for the amended C6 at concrete inputs: a non-empty explicit
namespace wins; a session-derived namespace is used when the field is absent;
an event with neither is dropped. -/
theorem C6_namespace_resolution_amended_witness :
    resolveNamespace [⟨"s1", "beta", true, none⟩]
      ⟨"toast", some "alpha", some "s1"⟩ = some "alpha" ∧
    resolveNamespace [⟨"s1", "beta", true, none⟩]
      ⟨"message-received", none, some "s1"⟩ = some "beta" ∧
    resolveNamespace [⟨"s1", "beta", true, none⟩]
      ⟨"toast", none, none⟩ = none ∧
    emitDelivered [⟨"s1", "beta", true, none⟩] ⟨"toast", none, none⟩ = none := by
  have h1 := (C6_namespace_resolution_amended [⟨"s1", "beta", true, none⟩]
    ⟨"toast", some "alpha", some "s1"⟩).1 "alpha" rfl (by decide)
  have h2 := (C6_namespace_resolution_amended [⟨"s1", "beta", true, none⟩]
    ⟨"message-received", none, some "s1"⟩).2.1 rfl "s1" ⟨"s1", "beta", true, none⟩
    rfl (by decide)
  have h3 := (C6_namespace_resolution_amended [⟨"s1", "beta", true, none⟩]
    ⟨"toast", none, none⟩).2.2.1 rfl (Or.inl rfl)
  exact ⟨h1, h2, h3.1, h3.2⟩

/-- C9: `sendMessage` always appends the message to the ledger and publishes
a `message-received` event carrying the stored message, whether or not a live
agent is attached; the agent push is an independent fire-and-forget effect
(`sessions.get(id)?.transport.send`), so its absence is never reported as a
message-send failure — the ledger and event effects are identical for an
attached and a detached agent. -/
theorem C9_send_message_effects (st : SendState) (sessionId text : String)
    (localId : Option String) (attachments : List String)
    (sentFrom : Option String) :
    (sendMessage st sessionId text localId attachments sentFrom).store.ledger =
      st.store.ledger ++
        [(addMessage st.store ⟨"user", text, attachments, sentFrom.getD "webapp"⟩
          localId).2] ∧
    (sendMessage st sessionId text localId attachments sentFrom).events =
      st.events ++
        [⟨sessionId,
          (addMessage st.store ⟨"user", text, attachments, sentFrom.getD "webapp"⟩
            localId).2⟩] ∧
    (∀ b : Bool,
      (sendMessage ⟨st.store, b, st.pushes, st.events⟩ sessionId text localId
        attachments sentFrom).store =
        (sendMessage st sessionId text localId attachments sentFrom).store ∧
      (sendMessage ⟨st.store, b, st.pushes, st.events⟩ sessionId text localId
        attachments sentFrom).events =
        (sendMessage st sessionId text localId attachments sentFrom).events) := by
  refine ⟨rfl, rfl, ?_⟩
  intro b
  exact ⟨rfl, rfl⟩

/-- C10: the request `SyncEngine.spawnSession` forwards to the Agent Manager
contains only `directory`, `agent`, `model`, `yolo` and `resumeSessionId`;
two calls differing only in `machineId`, `sessionType` and `worktreeName`
forward the identical request and so have the same outcome for every Agent
Manager — even though the HTTP spawn route accepts and forwards
`sessionType` and `worktreeName`. -/
theorem C10_spawn_ignores_extras (spawner : AgentSpawnRequest → SpawnResult)
    (m1 m2 directory : String) (agent : Option String) (model : Option String)
    (yolo : Option Bool) (st1 st2 w1 w2 : Option String)
    (resumeSessionId : Option String) (b1 b2 : SpawnBody) :
    spawnSessionRequest m1 directory agent model yolo st1 w1 resumeSessionId =
      spawnSessionRequest m2 directory agent model yolo st2 w2 resumeSessionId ∧
    spawnSession spawner m1 directory agent model yolo st1 w1 resumeSessionId =
      spawnSession spawner m2 directory agent model yolo st2 w2 resumeSessionId ∧
    (b1.directory = b2.directory → b1.agent = b2.agent → b1.model = b2.model →
      b1.yolo = b2.yolo → spawnRoute spawner b1 = spawnRoute spawner b2) := by
  refine ⟨rfl, rfl, ?_⟩
  intro hd ha hm hy
  unfold spawnRoute spawnSession spawnSessionRequest
  rw [hd, ha, hm, hy]

/-- Witness for C10: two spawn route bodies differing only in `sessionType`
and `worktreeName` produce the same result for a spawner that echoes its
request's directory. -/
theorem C10_spawn_ignores_extras_witness :
    spawnRoute (fun r => SpawnResult.success r.directory)
      ⟨"/repo", some "codex", none, some true, some "worktree", some "wt1"⟩ =
    spawnRoute (fun r => SpawnResult.success r.directory)
      ⟨"/repo", some "codex", none, some true, none, none⟩ := by
  exact (C10_spawn_ignores_extras (fun r => SpawnResult.success r.directory)
    "local" "local" "/repo" (some "codex") none (some true)
    (some "worktree") none (some "wt1") none none
    ⟨"/repo", some "codex", none, some true, some "worktree", some "wt1"⟩
    ⟨"/repo", some "codex", none, some true, none, none⟩).2.2
    rfl rfl rfl rfl

/-- The `oldestSeq` fold computes the minimum of the returned sequence
numbers. -/
theorem oldestSeq_eq_min? (ms : List StoredMessage) :
    oldestSeq ms = (ms.map (fun m => m.seq)).min? := by
  have step : ∀ (l : List StoredMessage) (v : Nat),
      l.foldl
        (fun acc m =>
          match acc with
          | none => some m.seq
          | some o => if m.seq < o then some m.seq else some o)
        (some v) = some ((l.map (fun m => m.seq)).foldl min v) := by
    intro l
    induction l with
    | nil => intro v; rfl
    | cons m l ih =>
      intro v
      simp only [List.foldl_cons, List.map_cons]
      have harg : (if m.seq < v then some m.seq else some v) =
          some (min v m.seq) := by
        by_cases h : m.seq < v
        · rw [if_pos h, Nat.min_def, if_neg (by omega)]
        · rw [if_neg h, Nat.min_def, if_pos (by omega)]
      rw [harg]
      exact ih (min v m.seq)
  cases ms with
  | nil => rfl
  | cons m l =>
    unfold oldestSeq
    simp only [List.foldl_cons, List.map_cons, List.min?_cons']
    exact step l m.seq

/-- A store page never exceeds the requested limit. -/
theorem storeGetMessages_length_le (ledger : List StoredMessage) (limit : Nat)
    (beforeSeq : Option Nat) :
    (storeGetMessages ledger limit beforeSeq).length ≤ limit := by
  unfold storeGetMessages
  cases beforeSeq with
  | none => simp only [List.length_drop]; omega
  | some b => simp only [List.length_drop]; omega

/-- Every message of a store page is a message of the ledger. -/
theorem storeGetMessages_subset (ledger : List StoredMessage) (limit : Nat)
    (beforeSeq : Option Nat) (m : StoredMessage)
    (h : m ∈ storeGetMessages ledger limit beforeSeq) : m ∈ ledger := by
  unfold storeGetMessages at h
  cases beforeSeq with
  | none => exact List.mem_of_mem_drop h
  | some b => exact List.mem_of_mem_filter (List.mem_of_mem_drop h)

/-- With a cursor, every message of a store page is older than the cursor. -/
theorem storeGetMessages_lt (ledger : List StoredMessage) (limit : Nat)
    (b : Nat) (m : StoredMessage)
    (h : m ∈ storeGetMessages ledger limit (some b)) : m.seq < b := by
  unfold storeGetMessages at h
  have := List.of_mem_filter (List.mem_of_mem_drop h)
  simpa using this

/-- The one-message probe used for `hasMore` is empty exactly when the ledger
has no message older than the cursor. -/
theorem storeGetMessages_probe_empty (ledger : List StoredMessage) (v : Nat) :
    storeGetMessages ledger 1 (some v) = [] ↔
      ∀ m ∈ ledger, ¬ m.seq < v := by
  unfold storeGetMessages
  simp only []
  constructor
  · intro h m hm hlt
    have hmem : m ∈ ledger.filter (fun m => m.seq < v) :=
      List.mem_filter.mpr ⟨hm, by simpa using hlt⟩
    have hlen : 0 < (ledger.filter (fun m => m.seq < v)).length :=
      List.length_pos.mpr (List.ne_nil_of_mem hmem)
    have hdrop := congrArg List.length h
    simp only [List.length_drop, List.length_nil] at hdrop
    omega
  · intro h
    have : ledger.filter (fun m => m.seq < v) = [] := by
      rw [List.filter_eq_nil_iff]
      intro m hm
      simpa using h m hm
    rw [this]
    rfl

/-- Structural form of `getMessagesPage`. -/
theorem getMessagesPage_eq (ledger : List StoredMessage) (limit : Nat)
    (beforeSeq : Option Nat) :
    getMessagesPage ledger limit beforeSeq =
      ⟨storeGetMessages ledger limit beforeSeq,
        ⟨limit, beforeSeq, oldestSeq (storeGetMessages ledger limit beforeSeq),
          match oldestSeq (storeGetMessages ledger limit beforeSeq) with
          | none => false
          | some v => !(storeGetMessages ledger 1 (some v)).isEmpty⟩⟩ := rfl

/-- C7: a page holds at most `limit` messages, all older than a non-null
`beforeSeq`; `nextBeforeSeq` is the minimum returned `seq` (null exactly for
an empty page); `hasMore` holds exactly when `nextBeforeSeq` is non-null and
the ledger still has a message older than it; an empty page has
`hasMore = false` and `nextBeforeSeq = null`. -/
theorem C7_get_messages_page (ledger : List StoredMessage) (limit : Nat)
    (beforeSeq : Option Nat) :
    (getMessagesPage ledger limit beforeSeq).messages.length ≤ limit ∧
    (∀ b, beforeSeq = some b →
      ∀ m ∈ (getMessagesPage ledger limit beforeSeq).messages, m.seq < b) ∧
    ((getMessagesPage ledger limit beforeSeq).page.nextBeforeSeq = none ↔
      (getMessagesPage ledger limit beforeSeq).messages = []) ∧
    (∀ v, (getMessagesPage ledger limit beforeSeq).page.nextBeforeSeq = some v ↔
      (v ∈ (getMessagesPage ledger limit beforeSeq).messages.map (fun m => m.seq) ∧
        ∀ u ∈ (getMessagesPage ledger limit beforeSeq).messages.map (fun m => m.seq),
          v ≤ u)) ∧
    ((getMessagesPage ledger limit beforeSeq).page.hasMore = true ↔
      (∃ v, (getMessagesPage ledger limit beforeSeq).page.nextBeforeSeq = some v ∧
        ∃ m ∈ ledger, m.seq < v)) ∧
    ((getMessagesPage ledger limit beforeSeq).messages = [] →
      (getMessagesPage ledger limit beforeSeq).page.hasMore = false ∧
      (getMessagesPage ledger limit beforeSeq).page.nextBeforeSeq = none) := by
  simp only [getMessagesPage_eq]
  refine ⟨?_, ?_, ?_, ?_, ?_, ?_⟩
  · exact storeGetMessages_length_le ledger limit beforeSeq
  · intro b hb m hm
    subst hb
    exact storeGetMessages_lt ledger limit b m hm
  · rw [oldestSeq_eq_min?, List.min?_eq_none_iff]
    simp
  · intro v
    rw [oldestSeq_eq_min?]
    exact List.min?_eq_some_iff'
  · cases hnv : oldestSeq (storeGetMessages ledger limit beforeSeq) with
    | none => simp
    | some v =>
      simp only [Option.some.injEq]
      constructor
      · intro h
        have hne : storeGetMessages ledger 1 (some v) ≠ [] := by
          intro hnil
          rw [hnil] at h
          simp at h
        have := (not_iff_not.mpr (storeGetMessages_probe_empty ledger v)).mp hne
        push_neg at this
        obtain ⟨m, hm, hlt⟩ := this
        exact ⟨v, rfl, m, hm, hlt⟩
      · rintro ⟨w, rfl, m, hm, hlt⟩
        have hne : storeGetMessages ledger 1 (some v) ≠ [] := by
          intro hnil
          exact ((storeGetMessages_probe_empty ledger v).mp hnil) m hm hlt
        simpa [List.isEmpty_iff] using hne
  · intro hempty
    have hnv : oldestSeq (storeGetMessages ledger limit beforeSeq) = none := by
      rw [oldestSeq_eq_min?, List.min?_eq_none_iff]
      simp [hempty]
    rw [hnv]
    exact ⟨rfl, rfl⟩

/-- Witness for C7 on a three-message ledger, page limit 2 and cursor 3. -/
theorem C7_get_messages_page_witness :
    (getMessagesPage
      [⟨1, 1, none, ⟨"user", "a", [], "webapp"⟩, 0⟩,
       ⟨2, 2, none, ⟨"user", "b", [], "webapp"⟩, 0⟩,
       ⟨3, 3, none, ⟨"user", "c", [], "webapp"⟩, 0⟩] 2 (some 3)).messages.length ≤ 2 ∧
    (∀ m ∈ (getMessagesPage
      [⟨1, 1, none, ⟨"user", "a", [], "webapp"⟩, 0⟩,
       ⟨2, 2, none, ⟨"user", "b", [], "webapp"⟩, 0⟩,
       ⟨3, 3, none, ⟨"user", "c", [], "webapp"⟩, 0⟩] 2 (some 3)).messages,
      m.seq < 3) := by
  have h := C7_get_messages_page
    [⟨1, 1, none, ⟨"user", "a", [], "webapp"⟩, 0⟩,
     ⟨2, 2, none, ⟨"user", "b", [], "webapp"⟩, 0⟩,
     ⟨3, 3, none, ⟨"user", "c", [], "webapp"⟩, 0⟩] 2 (some 3)
  exact ⟨h.1, h.2.1 3 rfl⟩

/-! ## Pagination round trip (C8) -/

/-- The portion of the ledger visible below a pagination cursor: the whole
ledger for a null cursor, otherwise the messages with `seq` below it. -/
def filterBefore (ledger : List StoredMessage) : Option Nat → List StoredMessage
  | none => ledger
  | some b => ledger.filter (fun m => m.seq < b)

/-- A store page is the tail chunk of the cursor-visible ledger portion. -/
theorem storeGetMessages_filterBefore (ledger : List StoredMessage)
    (limit : Nat) (b : Option Nat) :
    storeGetMessages ledger limit b =
      (filterBefore ledger b).drop ((filterBefore ledger b).length - limit) := by
  cases b <;> rfl

/-- Strict seq-sortedness survives cursor filtering. -/
theorem filterBefore_pairwise (ledger : List StoredMessage) (b : Option Nat)
    (hsort : List.Pairwise (fun x y => x.seq < y.seq) ledger) :
    List.Pairwise (fun x y => x.seq < y.seq) (filterBefore ledger b) := by
  cases b with
  | none => exact hsort
  | some bb => exact hsort.sublist (List.filter_sublist ledger)

/-- In a strictly seq-sorted list split as `A ++ h :: t`, the messages with
`seq` below `h.seq` are exactly `A`. -/
theorem filter_head_sorted (A : List StoredMessage) (h : StoredMessage)
    (t : List StoredMessage)
    (hs : List.Pairwise (fun x y => x.seq < y.seq) (A ++ h :: t)) :
    (A ++ h :: t).filter (fun m => m.seq < h.seq) = A := by
  rw [List.filter_append]
  have h1 : A.filter (fun m => m.seq < h.seq) = A := by
    rw [List.filter_eq_self]
    intro a ha
    have := (List.pairwise_append.mp hs).2.2 a ha h (by simp)
    simpa using this
  have h2 : (h :: t).filter (fun m => m.seq < h.seq) = [] := by
    rw [List.filter_eq_nil_iff]
    intro a ha
    rcases List.mem_cons.mp ha with rfl | hat
    · simp
    · have hpw := (List.pairwise_append.mp hs).2.1
      have := (List.pairwise_cons.mp hpw).1 a hat
      simp only [decide_eq_true_eq]
      omega
  rw [h1, h2, List.append_nil]

/-- The `oldestSeq` of a strictly sorted non-empty list is its head's seq. -/
theorem oldestSeq_sorted_cons (h : StoredMessage) (t : List StoredMessage)
    (hs : List.Pairwise (fun x y => x.seq < y.seq) (h :: t)) :
    oldestSeq (h :: t) = some h.seq := by
  rw [oldestSeq_eq_min?]
  apply List.min?_eq_some_iff'.mpr
  constructor
  · simp
  · intro u hu
    obtain ⟨m, hm, rfl⟩ := List.mem_map.mp hu
    rcases List.mem_cons.mp hm with rfl | hmt
    · exact Nat.le_refl _
    · exact Nat.le_of_lt ((List.pairwise_cons.mp hs).1 m hmt)

/-- Filtering below a value already below the cursor commutes with the
cursor filter. -/
theorem filterBefore_filter_eq (ledger : List StoredMessage) (b : Option Nat)
    (w : Nat) (hw : ∀ bb, b = some bb → w ≤ bb) :
    (filterBefore ledger b).filter (fun m => m.seq < w) =
      ledger.filter (fun m => m.seq < w) := by
  cases b with
  | none => rfl
  | some bb =>
    have hwbb : w ≤ bb := hw bb rfl
    unfold filterBefore
    rw [List.filter_filter]
    apply List.filter_congr
    intro m _
    by_cases h : m.seq < w
    · have hb : m.seq < bb := by omega
      simp [h, hb]
    · simp [h]

/-- One step of the pagination loop consumes the tail chunk of the
cursor-visible ledger and recurses on the rest: with enough fuel the loop
collects a permutation of the cursor-visible messages. -/
theorem pageLoop_perm (ledger : List StoredMessage)
    (hsort : List.Pairwise (fun x y => x.seq < y.seq) ledger)
    (limit : Nat) (hlim : 1 ≤ limit) :
    ∀ (fuel : Nat) (b : Option Nat),
      (filterBefore ledger b).length < fuel →
      (pageLoop ledger limit fuel b).Perm (filterBefore ledger b) := by
  intro fuel
  induction fuel with
  | zero => intro b h; omega
  | succ fuel ih =>
    intro b hlen
    have hsf := filterBefore_pairwise ledger b hsort
    simp only [pageLoop, getMessagesPage_eq]
    rw [storeGetMessages_filterBefore]
    cases hB : (filterBefore ledger b).drop ((filterBefore ledger b).length - limit) with
    | nil =>
      have hl := congrArg List.length hB
      simp only [List.length_drop, List.length_nil] at hl
      have hfnil : filterBefore ledger b = [] :=
        List.length_eq_zero.mp (by omega)
      rw [hfnil]
      simp [oldestSeq]
    | cons hM t =>
      have hfne : filterBefore ledger b ≠ [] := by
        intro h0
        rw [h0] at hB
        simp at hB
      have hflen : 0 < (filterBefore ledger b).length := List.length_pos.mpr hfne
      have hsB : List.Pairwise (fun x y => x.seq < y.seq) (hM :: t) := by
        have hsub := hsf.sublist
          (List.drop_sublist ((filterBefore ledger b).length - limit)
            (filterBefore ledger b))
        rw [hB] at hsub
        exact hsub
      have hold := oldestSeq_sorted_cons hM t hsB
      have hsplit0 := (List.take_append_drop
        ((filterBefore ledger b).length - limit) (filterBefore ledger b)).symm
      rw [hB] at hsplit0
      obtain ⟨A, hA⟩ : ∃ A, (filterBefore ledger b).take
          ((filterBefore ledger b).length - limit) = A := ⟨_, rfl⟩
      rw [hA] at hsplit0
      have hAlen := congrArg List.length hA
      rw [List.length_take] at hAlen
      have hcut : ∀ bb, b = some bb → hM.seq ≤ bb := by
        intro bb hbb
        have hmem : hM ∈ filterBefore ledger b := by
          rw [hsplit0]
          exact List.mem_append.mpr (Or.inr (by simp))
        rw [hbb] at hmem
        have := List.of_mem_filter hmem
        simp only [decide_eq_true_eq] at this
        omega
      have hfilterA : ledger.filter (fun m => m.seq < hM.seq) = A := by
        rw [← filterBefore_filter_eq ledger b hM.seq hcut]
        calc (filterBefore ledger b).filter (fun m => m.seq < hM.seq)
            = (A ++ hM :: t).filter (fun m => m.seq < hM.seq) := by rw [← hsplit0]
          _ = A := filter_head_sorted A hM t (hsplit0 ▸ hsf)
      have hnextF : filterBefore ledger (some hM.seq) = A := by
        unfold filterBefore
        exact hfilterA
      have hprobeEq : storeGetMessages ledger 1 (some hM.seq) =
          A.drop (A.length - 1) := by
        rw [storeGetMessages_filterBefore, hnextF]
      simp only [hold]
      by_cases hAnil : A = []
      · have hp0 : (filterBefore ledger b).length - limit = 0 := by
          rw [hAnil] at hAlen
          simp at hAlen
          omega
        have hfeq : filterBefore ledger b = hM :: t := by
          have hB2 := hB
          rw [hp0, List.drop_zero] at hB2
          exact hB2
        simp only [hprobeEq, hAnil, List.drop_nil, List.isEmpty_nil,
          Bool.not_true, Bool.false_eq_true, if_false]
        rw [hfeq]
      · have hprobeNe : A.drop (A.length - 1) ≠ [] := by
          intro h0
          have hl0 := congrArg List.length h0
          simp only [List.length_drop, List.length_nil] at hl0
          have := List.length_pos.mpr hAnil
          omega
        have hcond : (!(storeGetMessages ledger 1 (some hM.seq)).isEmpty) = true := by
          rw [hprobeEq]
          simpa [List.isEmpty_iff] using hprobeNe
        rw [if_pos hcond]
        have hAlt : A.length < fuel := by omega
        have hrec := ih (some hM.seq) (by rw [hnextF]; exact hAlt)
        rw [hnextF] at hrec
        have hstep : ((hM :: t) ++ pageLoop ledger limit fuel (some hM.seq)).Perm
            (A ++ (hM :: t)) :=
          (List.Perm.append_left (hM :: t) hrec).trans List.perm_append_comm
        rw [← hsplit0] at hstep
        exact hstep

/-- C8: for a session whose ledger is strictly seq-sorted (the store
invariant) and any page limit of at least one, following `nextBeforeSeq` from
`beforeSeq = null` until `hasMore = false` concatenates pages that form a
permutation of the full message set — every message appears exactly once,
with no duplicated and no missing seq. -/
theorem C8_pagination_round_trip (ledger : List StoredMessage) (limit : Nat)
    (hsort : List.Pairwise (fun x y => x.seq < y.seq) ledger)
    (hlim : 1 ≤ limit) :
    (collectAllPages ledger limit).Perm ledger ∧
    ((collectAllPages ledger limit).map (fun m => m.seq)).Nodup ∧
    (∀ m ∈ ledger, m ∈ collectAllPages ledger limit) ∧
    (∀ m ∈ collectAllPages ledger limit, m ∈ ledger) := by
  have hperm : (collectAllPages ledger limit).Perm ledger := by
    have h := pageLoop_perm ledger hsort limit hlim (ledger.length + 1) none
      (by show ledger.length < ledger.length + 1
          omega)
    exact h
  refine ⟨hperm, ?_, ?_, ?_⟩
  · have hp : List.Pairwise (· < ·) (ledger.map (fun m => m.seq)) :=
      List.pairwise_map.mpr hsort
    have hnd : (ledger.map (fun m => m.seq)).Nodup :=
      hp.imp (fun h => Nat.ne_of_lt h)
    exact ((hperm.map (fun m => m.seq)).nodup_iff).mpr hnd
  · intro m hm
    exact hperm.mem_iff.mpr hm
  · intro m hm
    exact hperm.mem_iff.mp hm

/-- Witness for C8 on a three-message strictly sorted ledger with limit 2. -/
theorem C8_pagination_round_trip_witness :
    (collectAllPages
      [⟨10, 1, none, ⟨"user", "x", [], "webapp"⟩, 5⟩,
       ⟨11, 2, none, ⟨"user", "y", [], "webapp"⟩, 6⟩,
       ⟨12, 3, none, ⟨"user", "z", [], "webapp"⟩, 7⟩] 2).Perm
      [⟨10, 1, none, ⟨"user", "x", [], "webapp"⟩, 5⟩,
       ⟨11, 2, none, ⟨"user", "y", [], "webapp"⟩, 6⟩,
       ⟨12, 3, none, ⟨"user", "z", [], "webapp"⟩, 7⟩] ∧
    ((collectAllPages
      [⟨10, 1, none, ⟨"user", "x", [], "webapp"⟩, 5⟩,
       ⟨11, 2, none, ⟨"user", "y", [], "webapp"⟩, 6⟩,
       ⟨12, 3, none, ⟨"user", "z", [], "webapp"⟩, 7⟩] 2).map
        (fun m => m.seq)).Nodup := by
  have h := C8_pagination_round_trip
    [⟨10, 1, none, ⟨"user", "x", [], "webapp"⟩, 5⟩,
     ⟨11, 2, none, ⟨"user", "y", [], "webapp"⟩, 6⟩,
     ⟨12, 3, none, ⟨"user", "z", [], "webapp"⟩, 7⟩] 2
    (by decide) (by decide)
  exact ⟨h.1, h.2.1⟩

end Hapi
